import Mathlib

/-!
# Verification of the `eluv-io/log-go` logging core

A shallow embedding of the hierarchical logger registry, the logger
snapshots, the throttling decorator and the metrics hook of the
`eluv-io/log-go` repository, with theorems settling the specification
claims.

Conventions of the embedding:
* Go machine integers carry no overflow-relevant arithmetic here; levels
  are `Int` (the apex `Level` type is a Go `int`), durations and
  timestamps are `Nat` milliseconds on a monotone clock.
* Go pointers to `Log` objects become indices into an explicit heap
  (`RootState.heap`); the atomically swappable `logger` snapshot stored
  in a `Log` is the heap cell's content.
* Go maps become association lists with first-match lookup; map
  insertion appends.  `reflect.DeepEqual` on configs is modelled by
  `configDeepEqual`, which compares the `Named` map order-insensitively.
* The apex logging backend (`eluv-io/apexlog-go`) is an external
  dependency, modelled at its interface: levels are the integer
  constants `trace=0 … fatal=5`, `ParseLevel` accepts exactly the six
  level names, `Level.String` prints them.
-/

namespace Elog

/-! ## Levels (external apex interface: `type Level int`) -/

def traceLevel : Int := 0
def debugLevel : Int := 1
def infoLevel : Int := 2
def warnLevel : Int := 3
def errorLevel : Int := 4
def fatalLevel : Int := 5

/-- `apex.ParseLevel`: maps the six level names to their constants, rejects
everything else.  (External interface of `eluv-io/apexlog-go`.) -/
def parseLevel (s : String) : Option Int :=
  if s = "trace" then some traceLevel
  else if s = "debug" then some debugLevel
  else if s = "info" then some infoLevel
  else if s = "warn" then some warnLevel
  else if s = "error" then some errorLevel
  else if s = "fatal" then some fatalLevel
  else none

/-- `apex.Level.String`. -/
def levelString (lv : Int) : String :=
  if lv = traceLevel then "trace"
  else if lv = debugLevel then "debug"
  else if lv = infoLevel then "info"
  else if lv = warnLevel then "warn"
  else if lv = errorLevel then "error"
  else if lv = fatalLevel then "fatal"
  else "invalid"

/-! ## Configuration (`config.go`)

`Config` is the source struct `Config{Level, Handler, File, GoRoutineID,
Caller, Named}`.  The values of the `Named` map are themselves `*Config`
in Go, but their own nested `Named` entries are documented as ignored
("Any nested "Named" elements are ignored") and no code path reads them,
so children are embedded flat as `ChildConfig`.  The `Caller` field is
referenced by `logger.fields` and `mergeConfig` in the sources (the file
declaring it is not among the provided sources; its shape is fixed by
those uses: an optional boolean like `GoRoutineID`). -/

structure LumberjackConfig where
  filename : String
  maxSize : Int
  maxAge : Int
  maxBackups : Int
  localTime : Bool
  compress : Bool
deriving DecidableEq, Repr

structure ChildConfig where
  level : String
  handler : String
  file : Option LumberjackConfig
  goRoutineID : Option Bool
  caller : Option Bool
deriving DecidableEq, Repr

structure Config where
  level : String
  handler : String
  file : Option LumberjackConfig
  goRoutineID : Option Bool
  caller : Option Bool
  named : List (String × ChildConfig)
deriving DecidableEq, Repr

/-- `mergeConfig` (log root source): merges the explicitly set fields of the
more specific config `c` into `target`; empty strings / nil pointers inherit. -/
def mergeConfig (c : ChildConfig) (target : Config) : Config :=
  let t := if c.level ≠ "" then { target with level := c.level } else target
  let t := if c.handler ≠ "" then { t with handler := c.handler } else t
  let t := if c.file.isSome then { t with file := c.file } else t
  let t := match c.goRoutineID with
    | some b => { t with goRoutineID := some b }
    | none => t
  match c.caller with
  | some b => { t with caller := some b }
  | none => t

/-- `strings.HasPrefix` — structural, over the character lists (the
built-in `String.isPrefixOf` is well-founded-recursive and therefore not
kernel-reducible). -/
def hasPfx (p q : String) : Bool :=
  p.data.isPrefixOf q.data

/-- First-match association list lookup (Go map read). -/
def lookupA {β : Type} : List (String × β) → String → Option β
  | [], _ => none
  | (k, v) :: rest, key => if k = key then some v else lookupA rest key

/-- `reflect.DeepEqual` on two `*Config` values: field-wise deep equality,
with the `Named` maps compared as finite maps (order-insensitive). -/
def configDeepEqual (a b : Config) : Bool :=
  a.level == b.level && a.handler == b.handler && a.file == b.file &&
  a.goRoutineID == b.goRoutineID && a.caller == b.caller &&
  a.named.length == b.named.length &&
  a.named.all (fun kc => lookupA b.named kc.1 == some kc.2) &&
  b.named.all (fun kc => lookupA a.named kc.1 == some kc.2)

/-! ## Log fields and emissions (`logger.go`) -/

/-- Values carried by structured log fields.  `gid` and `callerSite` stand
for the dynamic goroutine id / call-site strings appended by
`logger.fields`. -/
inductive FVal where
  | str : String → FVal
  | int : Int → FVal
  | dur : Nat → FVal
  | gid : FVal
  | callerSite : FVal
deriving DecidableEq, Repr

abbrev Field := String × FVal

/-- One immutable `logger` snapshot (the struct in `logger.go` together with
the level of its inner `apex.Logger`).  `handlerId` identifies the handler
object (for sink reuse), `lumberjack` the rotation writer if one was
created. -/
structure LoggerSnap where
  level : Int
  handlerId : Nat
  handlerKind : String
  name : String
  config : Config
  lumberjack : Option Nat
deriving DecidableEq, Repr

def deadSnap : LoggerSnap :=
  ⟨infoLevel, 0, "json", "", ⟨"", "", none, none, none, []⟩, none⟩

/-- `logger.IsTrace` … `logger.IsFatal`: threshold predicates. -/
def isTrace (l : LoggerSnap) : Bool := decide (l.level ≤ traceLevel)
def isDebug (l : LoggerSnap) : Bool := decide (l.level ≤ debugLevel)
def isInfo (l : LoggerSnap) : Bool := decide (l.level ≤ infoLevel)
def isWarn (l : LoggerSnap) : Bool := decide (l.level ≤ warnLevel)
def isError (l : LoggerSnap) : Bool := decide (l.level ≤ errorLevel)
def isFatal (l : LoggerSnap) : Bool := decide (l.level ≤ fatalLevel)

/-- `logger.fields`: appends the goroutine id and the caller location when
the corresponding config flags are set. -/
def loggerFields (c : Config) (args : List Field) : List Field :=
  let args := if c.goRoutineID = some true then args ++ [("gid", FVal.gid)] else args
  if c.caller = some true then args ++ [("caller", FVal.callerSite)] else args

structure Emission where
  level : Int
  message : String
  fields : List Field
deriving DecidableEq, Repr

/-- Result of one per-level log call: the metric counter bumps it performed
(counter name, logger name) and the entry forwarded to the backend sink, if
any. -/
structure EmitResult where
  metricCalls : List (String × String)
  emitted : Option Emission
deriving DecidableEq, Repr

/-- `logger.Trace`: bumps the Debug metric counter, then forwards iff the
level permits trace. -/
def loggerTrace (l : LoggerSnap) (msg : String) (args : List Field) : EmitResult :=
  { metricCalls := [("debug", l.name)]
    emitted :=
      if isTrace l then some ⟨traceLevel, msg, loggerFields l.config args⟩ else none }

/-- `logger.Debug`. -/
def loggerDebug (l : LoggerSnap) (msg : String) (args : List Field) : EmitResult :=
  { metricCalls := [("debug", l.name)]
    emitted :=
      if isDebug l then some ⟨debugLevel, msg, loggerFields l.config args⟩ else none }

/-- `logger.Info`. -/
def loggerInfo (l : LoggerSnap) (msg : String) (args : List Field) : EmitResult :=
  { metricCalls := [("info", l.name)]
    emitted :=
      if isInfo l then some ⟨infoLevel, msg, loggerFields l.config args⟩ else none }

/-- `logger.Warn`. -/
def loggerWarn (l : LoggerSnap) (msg : String) (args : List Field) : EmitResult :=
  { metricCalls := [("warn", l.name)]
    emitted :=
      if isWarn l then some ⟨warnLevel, msg, loggerFields l.config args⟩ else none }

/-- `logger.Error`. -/
def loggerError (l : LoggerSnap) (msg : String) (args : List Field) : EmitResult :=
  { metricCalls := [("error", l.name)]
    emitted :=
      if isError l then some ⟨errorLevel, msg, loggerFields l.config args⟩ else none }

/-- `logger.Fatal`: no metric call, forwards unconditionally (the sink, not
the core, terminates the process). -/
def loggerFatal (l : LoggerSnap) (msg : String) (args : List Field) : EmitResult :=
  { metricCalls := []
    emitted := some ⟨fatalLevel, msg, loggerFields l.config args⟩ }

/-! ## Throttling decorator (`throttle.go`, current revision)

`throttledLog` holds the owning `*logger` snapshot, the fixed period, the
suppression counter and the timestamp of the last passed message
(`utc.UTC`; its zero value is modelled as `none`).  Time is `Nat`
milliseconds on a monotone clock. -/

structure ThrottledLog where
  logger : LoggerSnap
  period : Nat
  count : Nat
  last : Option Nat
deriving DecidableEq, Repr

/-- `newThrottledLog`. -/
def newThrottledLog (l : LoggerSnap) (period : Nat) : ThrottledLog :=
  ⟨l, period, 0, none⟩

/-- `throttledLog.throttle`: the guard (`isFn`) is checked first; otherwise
first-ever call passes with unchanged fields, a call at least `period` after
the last pass appends `suppressed`/`throttle_period` fields and resets the
counter, and anything else is suppressed, incrementing the counter. -/
def throttle (guard : Bool) (emitFn : List Field → EmitResult)
    (t : ThrottledLog) (now : Nat) (kv : List Field) : ThrottledLog × EmitResult :=
  if !guard then (t, ⟨[], none⟩)
  else
    match t.last with
    | none => ({ t with last := some now }, emitFn kv)
    | some lastT =>
      if t.period ≤ now - lastT then
        ({ t with count := 0, last := some now },
          emitFn (kv ++ [("suppressed", FVal.int t.count), ("throttle_period", FVal.dur t.period)]))
      else
        ({ t with count := t.count + 1 }, ⟨[], none⟩)

/-- `throttledLog.Trace`. -/
def throttledTrace (t : ThrottledLog) (now : Nat) (msg : String) (kv : List Field) :
    ThrottledLog × EmitResult :=
  throttle (isTrace t.logger) (loggerTrace t.logger msg) t now kv

/-- `throttledLog.Debug`. -/
def throttledDebug (t : ThrottledLog) (now : Nat) (msg : String) (kv : List Field) :
    ThrottledLog × EmitResult :=
  throttle (isDebug t.logger) (loggerDebug t.logger msg) t now kv

/-- `throttledLog.Info`. -/
def throttledInfo (t : ThrottledLog) (now : Nat) (msg : String) (kv : List Field) :
    ThrottledLog × EmitResult :=
  throttle (isInfo t.logger) (loggerInfo t.logger msg) t now kv

/-- `throttledLog.Warn`. -/
def throttledWarn (t : ThrottledLog) (now : Nat) (msg : String) (kv : List Field) :
    ThrottledLog × EmitResult :=
  throttle (isWarn t.logger) (loggerWarn t.logger msg) t now kv

/-- `throttledLog.Error`. -/
def throttledError (t : ThrottledLog) (now : Nat) (msg : String) (kv : List Field) :
    ThrottledLog × EmitResult :=
  throttle (isError t.logger) (loggerError t.logger msg) t now kv

/-- `throttledLog.Fatal`: forwards directly to `logger.Fatal`, bypassing the
throttle state entirely. -/
def throttledFatal (t : ThrottledLog) (msg : String) (kv : List Field) :
    ThrottledLog × EmitResult :=
  (t, loggerFatal t.logger msg kv)

/-- `throttleFactory`: lazily populated cache from throttle key to decorator. -/
structure FactoryState where
  cache : List (String × ThrottledLog)
deriving DecidableEq, Repr

/-- `throttleFactory.get`: memoizes one decorator per key; on a miss the
period is the first variadic duration, or 5 seconds when none is given. -/
def factoryGet (f : FactoryState) (l : LoggerSnap) (key : String) (duration : List Nat) :
    FactoryState × ThrottledLog :=
  match lookupA f.cache key with
  | some tl => (f, tl)
  | none =>
    let dur := duration.headD 5000
    let tl := newThrottledLog l dur
    (⟨f.cache ++ [(key, tl)]⟩, tl)

/-- Driver for the throttle scenario: `n` consecutive calls to the
decorator's `Warn`, call `i` happening at time `(i-1)*10` ms; records, per
call, the forwarded entry (if any) and the suppression counter after the
call. -/
def runThrottledWarn (msg : String) (kvF : Nat → List Field) :
    Nat → Nat → ThrottledLog → List (Option Emission × Nat)
  | 0, _, _ => []
  | n + 1, i, t =>
    let r := throttledWarn t ((i - 1) * 10) msg (kvF i)
    (r.2.emitted, r.1.count) :: runThrottledWarn msg kvF n (i + 1) r.1

/-! ## Path walking (the index loop of `logRoot.Get` / `updateNamedLoggers`)

The Go loop advances `idx` past the current separator to the next `'/'`
(or to the end of the string) and takes `path[:idx]` as the next prefix.
The cut positions depend only on the path, so they are computed up front;
the loop body is then a fold over the prefix list. -/

/-- Position of the first `'/'` at or after index `start` (`strings.Index`
on the suffix, shifted back). -/
def findSlashAux : List Char → Nat → Option Nat
  | [], _ => none
  | c :: cs, i => if c = '/' then some i else findSlashAux cs (i + 1)

def findSlash (cs : List Char) (start : Nat) : Option Nat :=
  findSlashAux (cs.drop start) start

/-- The successive values taken by `idx` in the Go loop, starting from
`idx`.  Each iteration strictly increases `idx`, so `cs.length` steps of
fuel are always enough (see `cutsFromF_fuel_irrel`). -/
def cutsFromF (cs : List Char) : Nat → Nat → List Nat
  | 0, _ => []
  | fuel + 1, idx =>
    if idx < cs.length then
      let idx2 := match findSlash cs (idx + 1) with
        | some j => j
        | none => cs.length
      idx2 :: cutsFromF cs fuel idx2
    else []

def pathCuts (cs : List Char) : List Nat :=
  cutsFromF cs cs.length 0

/-- The list of prefixes `path[:idx]` visited by the Go loop. -/
def pathPrefixes (path : String) : List String :=
  (pathCuts path.data).map (fun n => ⟨path.data.take n⟩)

/-! ## The registry (`logRoot`) -/

/-- The `logRoot` struct plus the heap of all `Log` objects ever created
and the creation counters of the metrics hook.  A `*Log` is an index into
`heap`; the cell content is the current `logger` snapshot held by the
`Log`'s atomic pointer.  `instancesCreated` doubles as the next fresh
handler identity, `filesCreated` as the next fresh rotation-writer
identity. -/
structure RootState where
  heap : List LoggerSnap
  named : List (String × Nat)
  defId : Nat
  defConfig : Config
  instancesCreated : Nat
  filesCreated : Nat
deriving DecidableEq, Repr

/-- `defaultFields`: the `logger` field bound to a new log — suppressed for
the console handler, and for the memory handler unless the level is
`debug`.  Only the optional field value (the logger name) is tracked. -/
def defaultFields (c : Config) (path : String) : Option String :=
  if c.handler = "console" then none
  else if c.handler = "memory" ∧ c.level ≠ "debug" then none
  else some path

/-- Effective handler kind after the `json` default fallthrough. -/
def effectiveKind (h : String) : String :=
  if h = "text" ∨ h = "raw" ∨ h = "console" ∨ h = "discard" ∨ h = "memory" then h
  else "json"

/-- The `file` local of `newLog`: a `File` with empty filename counts as no
file (log to stdout). -/
def normFile (c : Config) : Option LumberjackConfig :=
  match c.file with
  | some f => if f.filename = "" then none else some f
  | none => none

/-- The `par` local of `newLog`: the parent `Log`'s current snapshot. -/
def parSnap (st : RootState) (parent : Option Nat) : Option LoggerSnap :=
  match parent with
  | some i => st.heap.get? i
  | none => none

/-- The handler-reuse test of `newLog`: parent present, same handler kind,
deep-equal (normalized) file settings. -/
def reuseHandler (st : RootState) (c : Config) (parent : Option Nat) : Bool :=
  match parSnap st parent with
  | some ps => ps.config.handler == c.handler && ps.config.file == normFile c
  | none => false

/-- The `logger` snapshot `newLog` stores: parsed level (falling back to
`info`), the parent's handler when reused, otherwise a fresh handler and —
with file settings — a fresh rotation writer. -/
def newCell (st : RootState) (c : Config) (fieldsName : Option String)
    (parent : Option Nat) : LoggerSnap :=
  let level := (parseLevel c.level).getD infoLevel
  let name := fieldsName.getD ""
  match parSnap st parent, reuseHandler st c parent with
  | some ps, true => ⟨level, ps.handlerId, ps.handlerKind, name, c, none⟩
  | _, _ =>
    ⟨level, st.instancesCreated, effectiveKind c.handler, name, c,
      if (normFile c).isSome then some st.filesCreated else none⟩

/-- `newLog`: appends a fresh `Log` to the heap and returns its index,
bumping the metrics creation counters exactly when no handler is reused. -/
def newLogInState (st : RootState) (c : Config) (fieldsName : Option String)
    (parent : Option Nat) : RootState × Nat :=
  ({ st with
      heap := st.heap ++ [newCell st c fieldsName parent]
      instancesCreated :=
        if reuseHandler st c parent then st.instancesCreated else st.instancesCreated + 1
      filesCreated :=
        if !reuseHandler st c parent && (normFile c).isSome then st.filesCreated + 1
        else st.filesCreated },
    st.heap.length)

/-- `newLogRoot` / `New(c)`: fresh registry whose default log is built from
`c` with the root path `"/"` bound as logger field. -/
def newLogRoot (c : Config) : RootState :=
  let r := newLogInState ⟨[], [], 0, c, 0, 0⟩ c (defaultFields c "/") none
  { r.1 with defId := r.2 }

/-- `defaultConfig` (level info, text handler). -/
def defaultConfig : Config := ⟨"info", "text", none, none, none, []⟩

/-- `defaultLogRoot`, the registry installed by `init()`. -/
def defaultLogRoot : RootState := newLogRoot defaultConfig

/-- The loop body of `logRoot.Get`, for one prefix `p`: adopt a registered
log at `p` (capturing its stored config as the running merge base), else if
the default config has an explicit entry at `p`, merge it and materialize a
new registered log there. -/
structure GetAcc where
  st : RootState
  log : Nat
  logPath : String
  conf : Config

def getStep (acc : GetAcc) (p : String) : GetAcc :=
  let found := lookupA acc.st.named p
  let acc1 : GetAcc := match found with
    | some l =>
      { acc with log := l, logPath := p, conf := (acc.st.heap.getD l deadSnap).config }
    | none => acc
  match lookupA acc.st.defConfig.named p with
  | some ce =>
    if found.isSome then acc1
    else
      let conf := mergeConfig ce acc1.conf
      let r := newLogInState acc1.st conf (defaultFields conf p) (some acc1.log)
      ⟨{ r.1 with named := r.1.named ++ [(p, r.2)] }, r.2, p, conf⟩
  | none => acc1

/-- Leading-slash normalization of `logRoot.Get`. -/
def normPath (path : String) : String :=
  if path.data.head? = some '/' then path else "/" ++ path

/-- The full prefix walk of `logRoot.Get`, starting from the default log,
root path and a copy of the default config. -/
def getWalkAcc (st : RootState) (path : String) : GetAcc :=
  (pathPrefixes path).foldl getStep ⟨st, st.defId, "/", st.defConfig⟩

/-- The body of `logRoot.Get` after the empty-path shortcut and the
normalization: direct lookup, else the prefix walk followed by the final
registration when the walk did not already end on the full path. -/
def rootGetWalk (st : RootState) (path : String) : RootState × Nat :=
  match lookupA st.named path with
  | some l => (st, l)
  | none =>
    let acc := getWalkAcc st path
    if acc.logPath = path then (acc.st, acc.log)
    else
      let r := newLogInState acc.st acc.conf (defaultFields acc.conf path) (some acc.log)
      ({ r.1 with named := r.1.named ++ [(path, r.2)] }, r.2)

/-- `logRoot.Get`. -/
def rootGet (st : RootState) (path : String) : RootState × Nat :=
  if path = "" then (st, st.defId)
  else rootGetWalk st (normPath path)

/-- One step of the prefix walk in `updateNamedLoggers`: merge the root
config's explicit entry at `p` (if any) into the running config, and adopt
a registered log at a proper prefix as the nearest parent. -/
def updateWalkStep (rootConfig : Config) (named : List (String × Nat))
    (path : String) (acc : Config × Nat) (p : String) : Config × Nat :=
  let conf := match lookupA rootConfig.named p with
    | some cfg => mergeConfig cfg acc.1
    | none => acc.1
  let par := if p ≠ path then
      match lookupA named p with
      | some l => l
      | none => acc.2
    else acc.2
  (conf, par)

/-- The per-path recomputation of `updateNamedLoggers`: walk the path's
prefixes against the new root config, merging explicit entries and tracking
the nearest registered proper-ancestor log as parent, then replace the
existing `Log`'s snapshot with the newly derived one. -/
def recomputeNamed (st : RootState) (path : String) : RootState :=
  match lookupA st.named path with
  | none => st
  | some logId =>
    let rootConfig := (st.heap.getD st.defId deadSnap).config
    let walk := (pathPrefixes path).foldl (updateWalkStep rootConfig st.named path)
      (rootConfig, st.defId)
    let r := newLogInState st walk.1 (defaultFields walk.1 path) (some walk.2)
    { r.1 with heap := r.1.heap.set logId (r.1.heap.getD r.2 deadSnap) }

/-- `updateNamedLoggers`: re-derives every named log, in sorted path order,
from the new root configuration, replacing each `Log`'s snapshot in place. -/
def updateNamedLoggers (st : RootState) : RootState :=
  ((st.named.map Prod.fst).insertionSort (· ≤ ·)).foldl recomputeNamed st

/-- `logRoot.sameConfig`: `reflect.DeepEqual(r.defConfig, c)`. -/
def sameConfig (st : RootState) (c : Config) : Bool :=
  configDeepEqual st.defConfig c

/-- `logRoot.setDefaultNoLock` (= `SetDefault` under the registry lock):
no-op when the new config deep-equals the current default; otherwise a new
default log is built, the default config replaced, and every named log
re-derived. -/
def rootSetDefault (st : RootState) (c : Config) : RootState :=
  if sameConfig st c then st
  else
    let r := newLogInState st c (defaultFields c "/") none
    updateNamedLoggers { r.1 with defId := r.2, defConfig := c }

/-- The `setLevel` closure of `Log.setLogLevel` applied to a copied
snapshot: only the apex level and the config's level string change. -/
def setLevelSnap (lv : Int) (s : LoggerSnap) : LoggerSnap :=
  { s with level := lv, config := { s.config with level := levelString lv } }

/-- The loop body of `Log.setLogLevel` over the named map: when the entry's
path has the target log's name as a string prefix, replace that `Log`'s
snapshot by a releveled copy. -/
def setLevelFoldStep (logName : String) (lv : Int) (st : RootState)
    (e : String × Nat) : RootState :=
  if hasPfx logName e.1 then
    { st with heap := st.heap.set e.2 (setLevelSnap lv (st.heap.getD e.2 deadSnap)) }
  else st

/-- `Log.setLogLevel`: copies-and-relevels every named log whose path has
the target log's name as a string prefix, then the target log itself.

`logger.copy` copies the `config` **pointer** and the `setLevel` closure
writes `logCopy.config.Level` in place.  The default log's config object is
`logRoot.defConfig` itself (`New(c)` stores `c` unchanged, and both
`newLogRoot` and `setDefaultNoLock` pass the same `c` into `defConfig`),
while every named log's config is a per-log copy (`&cc` in `Get`, `&conf`
in `updateNamedLoggers`), never aliased to `defConfig` or to another log.
So the in-place write reaches `defConfig.Level` exactly when the target is
the registry's current default log, modelled by the `logId = st.defId`
test. -/
def setLogLevel (st : RootState) (logId : Nat) (lv : Int) : RootState :=
  let logName := (st.heap.getD logId deadSnap).name
  let st1 := st.named.foldl (setLevelFoldStep logName lv) st
  let st2 :=
    { st1 with heap := st1.heap.set logId (setLevelSnap lv (st1.heap.getD logId deadSnap)) }
  if logId = st.defId then
    { st2 with defConfig := { st2.defConfig with level := levelString lv } }
  else st2

/-- `Log.SetLevel`: parse the level string, no-op on failure. -/
def setLevelStr (st : RootState) (logId : Nat) (level : String) : RootState :=
  match parseLevel level with
  | none => st
  | some lv => setLogLevel st logId lv

/-- `Log.Level()`: the level string of the current snapshot. -/
def logLevelString (st : RootState) (logId : Nat) : String :=
  levelString (st.heap.getD logId deadSnap).level

/-- The pure prefix-order merge the spec describes: fold the explicit
`Named` entries of the root config over the path's prefixes, starting from
the root config itself. -/
def mergeAlong (c : Config) (ps : List String) : Config :=
  ps.foldl
    (fun conf p => match lookupA c.named p with
      | some e => mergeConfig e conf
      | none => conf)
    c

/-- A snapshot view of `newLog`'s result: the appended heap cell. -/
def newLogSnap (st : RootState) (c : Config) (fieldsName : Option String)
    (parent : Option Nat) : LoggerSnap :=
  (newLogInState st c fieldsName parent).1.heap.getD
    (newLogInState st c fieldsName parent).2 deadSnap

/-- Genuine tree descendance of logger paths: `q` is `p` itself or extends
`p` past a `/` separator.  (The code instead uses a plain string-prefix
match — see `setLogLevel`.) -/
def isDescendant (p q : String) : Bool :=
  q == p || hasPfx (p ++ "/") q

/-- Registry well-formedness used by the `setLogLevel` frame theorem: the
named map holds pairwise distinct, in-range `Log` references.  (True of
every registry the code builds: each registered id is fresh.) -/
def WfNamed (s : RootState) : Prop :=
  (s.named.map Prod.snd).Nodup ∧ ∀ i ∈ s.named.map Prod.snd, i < s.heap.length

instance (s : RootState) : Decidable (WfNamed s) := by
  unfold WfNamed; infer_instance

/-- Whether `setLogLevel` on `logId` (whose log name is `nm`) touches heap
cell `i`: the target itself, or any named log whose path has `nm` as a
string prefix. -/
def levelTouched (s : RootState) (logId : Nat) (nm : String) (i : Nat) : Bool :=
  i == logId || s.named.any (fun e => e.2 == i && hasPfx nm e.1)

/-- The registry states producible by the public operations: construction
from an arbitrary config, `Get`, `SetDefault`, `SetLevel` and the six
`SetXxx` setters. -/
inductive Reached : RootState → Prop
  | root (c : Config) : Reached (newLogRoot c)
  | get (s : RootState) (p : String) : Reached s → Reached (rootGet s p).1
  | setDefault (s : RootState) (c : Config) : Reached s → Reached (rootSetDefault s c)
  | setLevel (s : RootState) (id : Nat) (lvl : String) :
      Reached s → Reached (setLevelStr s id lvl)
  | setTrace (s : RootState) (id : Nat) : Reached s → Reached (setLogLevel s id traceLevel)
  | setDebug (s : RootState) (id : Nat) : Reached s → Reached (setLogLevel s id debugLevel)
  | setInfo (s : RootState) (id : Nat) : Reached s → Reached (setLogLevel s id infoLevel)
  | setWarn (s : RootState) (id : Nat) : Reached s → Reached (setLogLevel s id warnLevel)
  | setError (s : RootState) (id : Nat) : Reached s → Reached (setLogLevel s id errorLevel)
  | setFatal (s : RootState) (id : Nat) : Reached s → Reached (setLogLevel s id fatalLevel)

/-- Invariant of the `Get` walk over a freshly configured registry with
root config `c`, after processing the prefixes `done`: the named map only
holds processed prefixes, the default config is untouched, the running
config is the pure prefix-order merge, and the current log's stored
snapshot carries exactly that merged config and its parsed level. -/
def FreshInv (c : Config) (done : List String) (acc : GetAcc) : Prop :=
  (∀ k, (lookupA acc.st.named k).isSome = true → k ∈ done) ∧
  acc.st.defConfig = c ∧
  acc.conf = mergeAlong c done ∧
  (acc.st.heap.getD acc.log deadSnap).config = acc.conf ∧
  (acc.st.heap.getD acc.log deadSnap).level =
    (parseLevel acc.conf.level).getD infoLevel

/-- The level invariant behind `IsFatal`: every snapshot on the heap has a
level at most `fatal`. -/
def levelsOk (s : RootState) : Prop :=
  ∀ snap ∈ s.heap, snap.level ≤ fatalLevel

/-! ## Helper lemmas -/

theorem foldl_preserve {α β : Type} (P : α → Prop) (f : α → β → α) (l : List β)
    (hf : ∀ a b, P a → P (f a b)) :
    ∀ a, P a → P (l.foldl f a) := by
  induction l with
  | nil => exact fun a h => h
  | cons x xs ih => exact fun a h => ih (f a x) (hf a x h)

theorem parseLevel_le (s : String) (lv : Int) (h : parseLevel s = some lv) :
    lv ≤ fatalLevel := by
  unfold parseLevel at h
  split_ifs at h <;> (cases h; decide)

theorem parsed_level_le (s : String) : (parseLevel s).getD infoLevel ≤ fatalLevel := by
  cases h : parseLevel s with
  | none => decide
  | some lv => exact parseLevel_le s lv h

theorem newCell_level (st : RootState) (c : Config) (fn : Option String)
    (p : Option Nat) :
    (newCell st c fn p).level = (parseLevel c.level).getD infoLevel := by
  unfold newCell
  split <;> rfl

theorem levelsOk_getD (s : RootState) (h : levelsOk s) (i : Nat) :
    (s.heap.getD i deadSnap).level ≤ fatalLevel := by
  rw [List.getD_eq_getElem?_getD]
  cases hi : s.heap[i]? with
  | none => decide
  | some snap =>
    have hm : snap ∈ s.heap := by
      have := List.getElem?_eq_some_iff.mp hi
      obtain ⟨hlt, hget⟩ := this
      exact hget ▸ List.getElem_mem hlt
    exact h snap hm

theorem levelsOk_newLog (st : RootState) (c : Config) (fn : Option String)
    (p : Option Nat) (h : levelsOk st) : levelsOk (newLogInState st c fn p).1 := by
  intro snap hm
  unfold newLogInState at hm
  simp only [List.mem_append, List.mem_singleton] at hm
  rcases hm with hm | hm
  · exact h snap hm
  · rw [hm, newCell_level]
    exact parsed_level_le c.level

theorem levelsOk_set (st : RootState) (i : Nat) (v : LoggerSnap)
    (hv : v.level ≤ fatalLevel) (h : levelsOk st) :
    levelsOk { st with heap := st.heap.set i v } := by
  intro snap hm
  simp only at hm
  rcases List.mem_or_eq_of_mem_set hm with hm' | rfl
  · exact h snap hm'
  · exact hv

theorem levelsOk_getStep (acc : GetAcc) (p : String) (h : levelsOk acc.st) :
    levelsOk (getStep acc p).st := by
  unfold getStep
  cases hf : lookupA acc.st.named p with
  | some l =>
    cases hc : lookupA acc.st.defConfig.named p with
    | some ce => simpa [hf, hc] using h
    | none => simpa [hf, hc] using h
  | none =>
    cases hc : lookupA acc.st.defConfig.named p with
    | some ce =>
      simp only [hf, hc, Option.isSome_none, Bool.false_eq_true, if_false]
      intro snap hm
      simp only at hm
      exact levelsOk_newLog _ _ _ _ h snap hm
    | none => simpa [hf, hc] using h

theorem levelsOk_rootGetWalk (st : RootState) (p : String) (h : levelsOk st) :
    levelsOk (rootGetWalk st p).1 := by
  unfold rootGetWalk
  split
  · exact h
  · have hacc : levelsOk (getWalkAcc st p).st :=
      foldl_preserve (fun a => levelsOk a.st) getStep _
        (fun a b => levelsOk_getStep a b) _ h
    dsimp only
    split
    · exact hacc
    · intro snap hm
      simp only at hm
      exact levelsOk_newLog _ _ _ _ hacc snap hm

theorem levelsOk_rootGet (st : RootState) (p : String) (h : levelsOk st) :
    levelsOk (rootGet st p).1 := by
  unfold rootGet
  split
  · exact h
  · exact levelsOk_rootGetWalk st (normPath p) h

theorem levelsOk_recomputeNamed (st : RootState) (p : String) (h : levelsOk st) :
    levelsOk (recomputeNamed st p) := by
  unfold recomputeNamed
  split
  · exact h
  · dsimp only
    have h1 := levelsOk_newLog st
      ((pathPrefixes p).foldl
        (updateWalkStep (st.heap.getD st.defId deadSnap).config st.named p)
        ((st.heap.getD st.defId deadSnap).config, st.defId)).1
      (defaultFields ((pathPrefixes p).foldl
        (updateWalkStep (st.heap.getD st.defId deadSnap).config st.named p)
        ((st.heap.getD st.defId deadSnap).config, st.defId)).1 p)
      (some ((pathPrefixes p).foldl
        (updateWalkStep (st.heap.getD st.defId deadSnap).config st.named p)
        ((st.heap.getD st.defId deadSnap).config, st.defId)).2) h
    intro snap hm
    simp only at hm
    rcases List.mem_or_eq_of_mem_set hm with hm' | rfl
    · exact h1 snap hm'
    · exact levelsOk_getD _ h1 _

theorem levelsOk_updateNamed (st : RootState) (h : levelsOk st) :
    levelsOk (updateNamedLoggers st) := by
  unfold updateNamedLoggers
  exact foldl_preserve levelsOk recomputeNamed _
    (fun a b => levelsOk_recomputeNamed a b) _ h

theorem levelsOk_setDefault (st : RootState) (c : Config) (h : levelsOk st) :
    levelsOk (rootSetDefault st c) := by
  unfold rootSetDefault
  split
  · exact h
  · refine levelsOk_updateNamed _ ?_
    intro snap hm
    simp only at hm
    exact levelsOk_newLog _ _ _ _ h snap hm

theorem levelsOk_setLogLevel (st : RootState) (logId : Nat) (lv : Int)
    (hlv : lv ≤ fatalLevel) (h : levelsOk st) : levelsOk (setLogLevel st logId lv) := by
  unfold setLogLevel
  have hfold : levelsOk (st.named.foldl
      (setLevelFoldStep (st.heap.getD logId deadSnap).name lv) st) := by
    refine foldl_preserve levelsOk _ _ ?_ _ h
    intro a b ha
    unfold setLevelFoldStep
    split
    · exact levelsOk_set a _ _ hlv ha
    · exact ha
  have h2 := levelsOk_set _ logId (setLevelSnap lv
    ((st.named.foldl (setLevelFoldStep (st.heap.getD logId deadSnap).name lv) st).heap.getD
      logId deadSnap)) hlv hfold
  dsimp only
  split
  · exact h2
  · exact h2

theorem levelsOk_setLevelStr (st : RootState) (logId : Nat) (s : String)
    (h : levelsOk st) : levelsOk (setLevelStr st logId s) := by
  unfold setLevelStr
  cases hp : parseLevel s with
  | none => exact h
  | some lv => exact levelsOk_setLogLevel st logId lv (parseLevel_le s lv hp) h

theorem levelsOk_newLogRoot (c : Config) : levelsOk (newLogRoot c) := by
  unfold newLogRoot
  intro snap hm
  simp only at hm
  refine levelsOk_newLog ⟨[], [], 0, c, 0, 0⟩ c _ none ?_ snap hm
  intro x hx
  simp at hx

theorem levelsOk_reached (s : RootState) (h : Reached s) : levelsOk s := by
  induction h with
  | root c => exact levelsOk_newLogRoot c
  | get s p _ ih => exact levelsOk_rootGet s p ih
  | setDefault s c _ ih => exact levelsOk_setDefault s c ih
  | setLevel s id lvl _ ih => exact levelsOk_setLevelStr s id lvl ih
  | setTrace s id _ ih => exact levelsOk_setLogLevel s id traceLevel (by decide) ih
  | setDebug s id _ ih => exact levelsOk_setLogLevel s id debugLevel (by decide) ih
  | setInfo s id _ ih => exact levelsOk_setLogLevel s id infoLevel (by decide) ih
  | setWarn s id _ ih => exact levelsOk_setLogLevel s id warnLevel (by decide) ih
  | setError s id _ ih => exact levelsOk_setLogLevel s id errorLevel (by decide) ih
  | setFatal s id _ ih => exact levelsOk_setLogLevel s id fatalLevel (by decide) ih

theorem getD_concat {α : Type} (l : List α) (a d : α) : (l ++ [a]).getD l.length d = a := by
  induction l with
  | nil => rfl
  | cons x xs ih => simp only [List.cons_append, List.length_cons, List.getD_cons_succ]; exact ih

theorem newLogSnap_fields (st : RootState) (c : Config) (fn : Option String)
    (p : Option Nat) :
    (newLogSnap st c fn p).level = (parseLevel c.level).getD infoLevel ∧
    (newLogSnap st c fn p).name = fn.getD "" ∧
    (newLogSnap st c fn p).config = c := by
  unfold newLogSnap newLogInState
  simp only [getD_concat]
  unfold newCell
  repeat' split
  all_goals simp

theorem getD_set_self {α : Type} (l : List α) (i : Nat) (a d : α) (h : i < l.length) :
    (l.set i a).getD i d = a := by
  induction l generalizing i with
  | nil => simp at h
  | cons x xs ih =>
    cases i with
    | zero => rfl
    | succ j => exact ih j (by simpa using h)

theorem getD_set_ne {α : Type} (l : List α) (i j : Nat) (a d : α) (h : i ≠ j) :
    (l.set i a).getD j d = l.getD j d := by
  induction l generalizing i j with
  | nil => rfl
  | cons x xs ih =>
    cases i with
    | zero => cases j with
      | zero => exact absurd rfl h
      | succ k => rfl
    | succ i' => cases j with
      | zero => rfl
      | succ k => exact ih i' k (by omega)

theorem setLevelSnap_idem (lv : Int) (s : LoggerSnap) :
    setLevelSnap lv (setLevelSnap lv s) = setLevelSnap lv s := rfl

/-! ### Path-cut lemmas -/

theorem findSlashAux_some (l : List Char) (i j : Nat) (h : findSlashAux l i = some j) :
    i ≤ j ∧ j - i < l.length := by
  induction l generalizing i with
  | nil => cases h
  | cons c cs ih =>
    unfold findSlashAux at h
    by_cases hc : c = '/'
    · rw [if_pos hc] at h
      cases h
      simp
    · rw [if_neg hc] at h
      obtain ⟨h1, h2⟩ := ih (i + 1) h
      constructor
      · omega
      · simp only [List.length_cons]
        omega

theorem findSlash_some (cs : List Char) (s j : Nat) (h : findSlash cs s = some j) :
    s ≤ j ∧ j < cs.length := by
  unfold findSlash at h
  obtain ⟨h1, h2⟩ := findSlashAux_some _ _ _ h
  rw [List.length_drop] at h2
  omega

theorem cutsFromF_mem (cs : List Char) (fuel idx : Nat) :
    ∀ n ∈ cutsFromF cs fuel idx, idx < n ∧ n ≤ cs.length := by
  induction fuel generalizing idx with
  | zero => intro n hn; cases hn
  | succ f ih =>
    intro n hn
    unfold cutsFromF at hn
    by_cases hlt : idx < cs.length
    · rw [if_pos hlt] at hn
      rcases List.mem_cons.mp hn with rfl | hn'
      · cases hj : findSlash cs (idx + 1) with
        | none => simp only [hj]; omega
        | some j =>
          obtain ⟨hj1, hj2⟩ := findSlash_some cs (idx + 1) j hj
          simp only [hj]
          omega
      · have := ih _ n hn'
        cases hj : findSlash cs (idx + 1) with
        | none =>
          rw [hj] at hn'
          have := ih cs.length n hn'
          omega
        | some j =>
          rw [hj] at hn'
          obtain ⟨hj1, hj2⟩ := findSlash_some cs (idx + 1) j hj
          have := ih j n hn'
          omega
    · rw [if_neg hlt] at hn
      cases hn

theorem cutsFromF_pairwise (cs : List Char) (fuel idx : Nat) :
    (cutsFromF cs fuel idx).Pairwise (· < ·) := by
  induction fuel generalizing idx with
  | zero => exact List.Pairwise.nil
  | succ f ih =>
    unfold cutsFromF
    by_cases hlt : idx < cs.length
    · rw [if_pos hlt]
      refine List.pairwise_cons.mpr ⟨?_, ih _⟩
      intro n hn
      exact (cutsFromF_mem cs f _ n hn).1
    · rw [if_neg hlt]
      exact List.Pairwise.nil

theorem pathCuts_mem (cs : List Char) (n : Nat) (h : n ∈ pathCuts cs) :
    0 < n ∧ n ≤ cs.length :=
  cutsFromF_mem cs cs.length 0 n h

/-- Two distinct cuts (both at most the length) yield distinct prefixes. -/
theorem take_ne_of_cuts (l : List Char) (n m : Nat) (hn : n ≤ l.length)
    (hm : m ≤ l.length) (hnm : n < m) :
    (⟨l.take n⟩ : String) ≠ ⟨l.take m⟩ := by
  intro he
  have hd : l.take n = l.take m := congrArg String.data he
  have : (l.take n).length = (l.take m).length := by rw [hd]
  rw [List.length_take, List.length_take] at this
  omega

theorem pathPrefixes_pairwise_ne (q : String) :
    (pathPrefixes q).Pairwise (· ≠ ·) := by
  unfold pathPrefixes
  have hp : (pathCuts q.data).Pairwise
      (fun a b => (⟨q.data.take a⟩ : String) ≠ ⟨q.data.take b⟩) := by
    refine List.Pairwise.imp_of_mem ?_ (cutsFromF_pairwise q.data q.data.length 0)
    intro a b ha hb hlt
    exact take_ne_of_cuts q.data a b (pathCuts_mem _ _ ha).2 (pathCuts_mem _ _ hb).2 hlt
  exact List.Pairwise.map _ (fun a b h => h) hp

/-- A strictly increasing list bounded by `M` that contains `M` ends with
it. -/
theorem sorted_mem_max_last {l : List Nat} {M : Nat} (hs : l.Pairwise (· < ·))
    (hb : ∀ n ∈ l, n ≤ M) (hm : M ∈ l) : ∃ l', l = l' ++ [M] ∧ M ∉ l' := by
  induction l with
  | nil => cases hm
  | cons x xs ih =>
    by_cases hxM : x = M
    · subst hxM
      have hxs : xs = [] := by
        cases hxs : xs with
        | nil => rfl
        | cons y ys =>
          have hy : x < y := (List.pairwise_cons.mp hs).1 y (by rw [hxs]; simp)
          have := hb y (by rw [hxs]; simp)
          omega
      refine ⟨[], by rw [hxs]; rfl, by simp⟩
    · have hm' : M ∈ xs := by
        rcases List.mem_cons.mp hm with h | h
        · exact absurd h.symm hxM
        · exact h
      obtain ⟨l', hl', hnm⟩ := ih (List.pairwise_cons.mp hs).2
        (fun n hn => hb n (List.mem_cons_of_mem _ hn)) hm'
      refine ⟨x :: l', by rw [hl']; rfl, ?_⟩
      intro hx
      rcases List.mem_cons.mp hx with h | h
      · exact hxM h.symm
      · exact hnm h

/-- The full path occurs in its own prefix list only as the final element. -/
theorem pathPrefixes_self_last (q : String) (h : q ∈ pathPrefixes q) :
    ∃ P, pathPrefixes q = P ++ [q] ∧ q ∉ P := by
  unfold pathPrefixes at h ⊢
  obtain ⟨n, hn, he⟩ := List.mem_map.mp h
  have hb := pathCuts_mem q.data n hn
  have hlen : n = q.data.length := by
    have hd : q.data.take n = q.data := congrArg String.data he
    have : (q.data.take n).length = q.data.length := by rw [hd]
    rw [List.length_take] at this
    omega
  subst hlen
  obtain ⟨l', hl', hnm⟩ := sorted_mem_max_last
    (cutsFromF_pairwise q.data q.data.length 0)
    (fun m hm => (pathCuts_mem q.data m hm).2) hn
  have hql : (⟨q.data.take q.data.length⟩ : String) = q := by
    rw [List.take_length]
  refine ⟨l'.map (fun n => (⟨q.data.take n⟩ : String)), ?_, ?_⟩
  · rw [show pathCuts q.data = l' ++ [q.data.length] from hl', List.map_append]
    simp only [List.map_cons, List.map_nil, hql]
  · intro hq
    obtain ⟨m, hm, hme⟩ := List.mem_map.mp hq
    have hmb : m ≤ q.data.length := by
      have hmc : m ∈ pathCuts q.data := by
        rw [show pathCuts q.data = l' ++ [q.data.length] from hl']
        exact List.mem_append_left _ hm
      exact (pathCuts_mem q.data m hmc).2
    have hmlen : m = q.data.length := by
      have hd : q.data.take m = q.data := congrArg String.data hme
      have : (q.data.take m).length = q.data.length := by rw [hd]
      rw [List.length_take] at this
      omega
    rw [hmlen] at hm
    exact hnm hm

/-! ### Association-list lookup lemmas -/

theorem lookupA_cons {β : Type} (k' : String) (v' : β) (rest : List (String × β))
    (key : String) :
    lookupA ((k', v') :: rest) key = if k' = key then some v' else lookupA rest key := rfl

theorem lookupA_append_some {β : Type} (l l2 : List (String × β)) (k : String) (v : β)
    (h : lookupA l k = some v) : lookupA (l ++ l2) k = some v := by
  induction l with
  | nil => cases h
  | cons e rest ih =>
    cases e with
    | mk k' v' =>
      rw [List.cons_append, lookupA_cons]
      rw [lookupA_cons] at h
      by_cases he : k' = k
      · rw [if_pos he] at h ⊢
        exact h
      · rw [if_neg he] at h ⊢
        exact ih h

theorem lookupA_append_none {β : Type} (l l2 : List (String × β)) (k : String)
    (h : lookupA l k = none) : lookupA (l ++ l2) k = lookupA l2 k := by
  induction l with
  | nil => rfl
  | cons e rest ih =>
    cases e with
    | mk k' v' =>
      rw [List.cons_append, lookupA_cons]
      rw [lookupA_cons] at h
      by_cases he : k' = k
      · rw [if_pos he] at h
        cases h
      · rw [if_neg he] at h ⊢
        exact ih h

theorem lookupA_none_of_not_mem {β : Type} (l : List (String × β)) (k : String)
    (h : ∀ e ∈ l, e.1 ≠ k) : lookupA l k = none := by
  induction l with
  | nil => rfl
  | cons e rest ih =>
    unfold lookupA
    cases e with
    | mk k' v =>
      rw [if_neg (h (k', v) (List.mem_cons_self _ _))]
      exact ih (fun e he => h e (List.mem_cons_of_mem _ he))

/-! ### `getStep` case analysis -/

theorem getStep_found (acc : GetAcc) (p : String) (l : Nat)
    (h : lookupA acc.st.named p = some l) :
    getStep acc p = ⟨acc.st, l, p, (acc.st.heap.getD l deadSnap).config⟩ := by
  unfold getStep
  rw [h]
  cases hc : lookupA acc.st.defConfig.named p <;> rfl

theorem getStep_register (acc : GetAcc) (p : String) (ce : ChildConfig)
    (h1 : lookupA acc.st.named p = none)
    (h2 : lookupA acc.st.defConfig.named p = some ce) :
    getStep acc p =
      ⟨{ (newLogInState acc.st (mergeConfig ce acc.conf)
            (defaultFields (mergeConfig ce acc.conf) p) (some acc.log)).1 with
          named := acc.st.named ++ [(p, acc.st.heap.length)] },
        acc.st.heap.length, p, mergeConfig ce acc.conf⟩ := by
  unfold getStep
  rw [h1, h2]
  rfl

theorem getStep_skip (acc : GetAcc) (p : String)
    (h1 : lookupA acc.st.named p = none)
    (h2 : lookupA acc.st.defConfig.named p = none) :
    getStep acc p = acc := by
  unfold getStep
  rw [h1, h2]

/-- One step extends the named map by at most one entry, keyed by the
processed prefix. -/
theorem getStep_named (acc : GetAcc) (p : String) :
    (getStep acc p).st.named = acc.st.named ∨
      (getStep acc p).st.named = acc.st.named ++ [(p, acc.st.heap.length)] := by
  cases hf : lookupA acc.st.named p with
  | some l => rw [getStep_found acc p l hf]; exact Or.inl rfl
  | none =>
    cases hc : lookupA acc.st.defConfig.named p with
    | some ce => rw [getStep_register acc p ce hf hc]; exact Or.inr rfl
    | none => rw [getStep_skip acc p hf hc]; exact Or.inl rfl

/-- One step either leaves the accumulator unchanged or leaves the current
log registered under the current log path. -/
theorem getStep_self_lookup (acc : GetAcc) (p : String) :
    getStep acc p = acc ∨
      lookupA (getStep acc p).st.named (getStep acc p).logPath =
        some (getStep acc p).log := by
  cases hf : lookupA acc.st.named p with
  | some l =>
    rw [getStep_found acc p l hf]
    exact Or.inr hf
  | none =>
    cases hc : lookupA acc.st.defConfig.named p with
    | some ce =>
      rw [getStep_register acc p ce hf hc]
      refine Or.inr ?_
      rw [show ((⟨{ (newLogInState acc.st (mergeConfig ce acc.conf)
          (defaultFields (mergeConfig ce acc.conf) p) (some acc.log)).1 with
          named := acc.st.named ++ [(p, acc.st.heap.length)] },
          acc.st.heap.length, p, mergeConfig ce acc.conf⟩ : GetAcc)).st.named =
          acc.st.named ++ [(p, acc.st.heap.length)] from rfl]
      rw [lookupA_append_none _ _ _ hf]
      unfold lookupA
      rw [if_pos rfl]
    | none => exact Or.inl (getStep_skip acc p hf hc)

/-! ### Walk invariants -/

theorem getWalk_named (ps : List String) (acc : GetAcc) :
    ∃ ext, (ps.foldl getStep acc).st.named = acc.st.named ++ ext ∧
      ∀ k ∈ ext.map Prod.fst, k ∈ ps := by
  induction ps generalizing acc with
  | nil => exact ⟨[], by simp, by simp⟩
  | cons p rest ih =>
    rw [List.foldl_cons]
    obtain ⟨ext, hext, hkeys⟩ := ih (getStep acc p)
    rcases getStep_named acc p with hn | hn
    · exact ⟨ext, by rw [hext, hn], fun k hk => List.mem_cons_of_mem _ (hkeys k hk)⟩
    · refine ⟨(p, acc.st.heap.length) :: ext, ?_, ?_⟩
      · rw [hext, hn, List.append_assoc]
        rfl
      · intro k hk
        rcases List.mem_cons.mp hk with hk' | hk'
        · rw [hk']
          exact List.mem_cons_self _ _
        · exact List.mem_cons_of_mem _ (hkeys k hk')

theorem getWalk_lookup_none (ps : List String) (acc : GetAcc) (k : String)
    (hk : k ∉ ps) (h : lookupA acc.st.named k = none) :
    lookupA (ps.foldl getStep acc).st.named k = none := by
  obtain ⟨ext, hext, hkeys⟩ := getWalk_named ps acc
  rw [hext, lookupA_append_none _ _ _ h]
  refine lookupA_none_of_not_mem _ _ ?_
  intro e he hke
  exact hk (hke ▸ hkeys e.1 (List.mem_map_of_mem Prod.fst he))

theorem getWalk_self_lookup (ps : List String) (acc : GetAcc) :
    ps.foldl getStep acc = acc ∨
      lookupA (ps.foldl getStep acc).st.named (ps.foldl getStep acc).logPath =
        some (ps.foldl getStep acc).log := by
  induction ps generalizing acc with
  | nil => exact Or.inl rfl
  | cons p rest ih =>
    rw [List.foldl_cons]
    rcases getStep_self_lookup acc p with hs | hs
    · rw [hs]
      exact ih acc
    · rcases ih (getStep acc p) with he | he
      · rw [he]
        exact Or.inr hs
      · exact Or.inr he

/-! ## Claim theorems -/

/-- Unfolding `rootGetWalk` in the miss case, in terms of `getWalkAcc`. -/
theorem rootGetWalk_miss (st : RootState) (q : String)
    (hl : lookupA st.named q = none) :
    rootGetWalk st q =
      if (getWalkAcc st q).logPath = q then ((getWalkAcc st q).st, (getWalkAcc st q).log)
      else
        ({ (newLogInState (getWalkAcc st q).st (getWalkAcc st q).conf
              (defaultFields (getWalkAcc st q).conf q) (some (getWalkAcc st q).log)).1 with
            named := (getWalkAcc st q).st.named ++ [(q, (getWalkAcc st q).st.heap.length)] },
          (getWalkAcc st q).st.heap.length) := by
  unfold rootGetWalk
  rw [hl]
  rfl

/-- Second lookup of the walk's result: the walk itself registers the handle
it returns (or returns the registry untouched). -/
theorem rootGetWalk_idem (st : RootState) (q : String)
    (hl : lookupA st.named q = none) :
    rootGetWalk (rootGetWalk st q).1 q = ((rootGetWalk st q).1, (rootGetWalk st q).2) := by
  by_cases hq : (getWalkAcc st q).logPath = q
  · have hwalk : rootGetWalk st q = ((getWalkAcc st q).st, (getWalkAcc st q).log) := by
      rw [rootGetWalk_miss st q hl, if_pos hq]
    rw [hwalk]
    rcases getWalk_self_lookup (pathPrefixes q) ⟨st, st.defId, "/", st.defConfig⟩ with hacc | hacc
    · have hacc' : getWalkAcc st q = ⟨st, st.defId, "/", st.defConfig⟩ := hacc
      rw [hacc']
      have : rootGetWalk st q = (st, st.defId) := by
        rw [hwalk, hacc']
      exact this
    · have hacc' : lookupA (getWalkAcc st q).st.named (getWalkAcc st q).logPath =
          some (getWalkAcc st q).log := hacc
      rw [hq] at hacc'
      unfold rootGetWalk
      rw [hacc']
  · have hnone : lookupA (getWalkAcc st q).st.named q = none := by
      by_cases hmem : q ∈ pathPrefixes q
      · obtain ⟨P, hP, hqP⟩ := pathPrefixes_self_last q hmem
        have hsplit : getWalkAcc st q =
            getStep (P.foldl getStep ⟨st, st.defId, "/", st.defConfig⟩) q := by
          unfold getWalkAcc
          rw [hP, List.foldl_append, List.foldl_cons, List.foldl_nil]
        have hnoneP : lookupA
            ((P.foldl getStep ⟨st, st.defId, "/", st.defConfig⟩)).st.named q = none :=
          getWalk_lookup_none P _ q hqP hl
        cases hc : lookupA
            ((P.foldl getStep ⟨st, st.defId, "/", st.defConfig⟩)).st.defConfig.named q with
        | some ce =>
          exfalso
          apply hq
          rw [hsplit, getStep_register _ q ce hnoneP hc]
        | none =>
          rw [hsplit, getStep_skip _ q hnoneP hc]
          exact hnoneP
      · exact getWalk_lookup_none (pathPrefixes q) _ q hmem hl
    have hwalk : rootGetWalk st q =
        ({ (newLogInState (getWalkAcc st q).st (getWalkAcc st q).conf
              (defaultFields (getWalkAcc st q).conf q) (some (getWalkAcc st q).log)).1 with
            named := (getWalkAcc st q).st.named ++ [(q, (getWalkAcc st q).st.heap.length)] },
          (getWalkAcc st q).st.heap.length) := by
      rw [rootGetWalk_miss st q hl, if_neg hq]
    rw [hwalk]
    unfold rootGetWalk
    rw [show ({ (newLogInState (getWalkAcc st q).st (getWalkAcc st q).conf
          (defaultFields (getWalkAcc st q).conf q) (some (getWalkAcc st q).log)).1 with
          named := (getWalkAcc st q).st.named ++ [(q, (getWalkAcc st q).st.heap.length)] } :
          RootState).named =
        (getWalkAcc st q).st.named ++ [(q, (getWalkAcc st q).st.heap.length)] from rfl]
    rw [lookupA_append_none _ _ _ hnone, lookupA_cons, if_pos rfl]

/-! ### The fresh-walk merge invariant (C1) -/

theorem newCell_config (st : RootState) (c : Config) (fn : Option String)
    (p : Option Nat) : (newCell st c fn p).config = c := by
  unfold newCell
  split <;> rfl

theorem mergeAlong_concat (c : Config) (done : List String) (p : String) :
    mergeAlong c (done ++ [p]) =
      (match lookupA c.named p with
        | some e => mergeConfig e (mergeAlong c done)
        | none => mergeAlong c done) := by
  unfold mergeAlong
  rw [List.foldl_append]
  rfl

theorem freshInv_step (c : Config) (done : List String) (acc : GetAcc) (p : String)
    (hp : p ∉ done) (h : FreshInv c done acc) :
    FreshInv c (done ++ [p]) (getStep acc p) := by
  obtain ⟨h1, h2, h3, h4, h5⟩ := h
  have hfound : lookupA acc.st.named p = none := by
    cases hf : lookupA acc.st.named p with
    | none => rfl
    | some l => exact absurd (h1 p (by rw [hf]; rfl)) hp
  cases hc : lookupA acc.st.defConfig.named p with
  | some ce =>
    rw [getStep_register acc p ce hfound hc]
    have hcnamed : lookupA c.named p = some ce := by rw [← h2]; exact hc
    have hconf : mergeConfig ce acc.conf = mergeAlong c (done ++ [p]) := by
      rw [mergeAlong_concat, hcnamed, h3]
    refine ⟨?_, h2, hconf, ?_, ?_⟩
    · intro k hk
      simp only at hk
      cases hkl : lookupA acc.st.named k with
      | some v =>
        exact List.mem_append_left _ (h1 k (by rw [hkl]; rfl))
      | none =>
        rw [lookupA_append_none _ _ _ hkl, lookupA_cons] at hk
        by_cases hpk : p = k
        · rw [hpk]
          exact List.mem_append_right _ (List.mem_singleton_self _)
        · rw [if_neg hpk] at hk
          cases hk
    · simp only
      rw [show (newLogInState acc.st (mergeConfig ce acc.conf)
            (defaultFields (mergeConfig ce acc.conf) p) (some acc.log)).1.heap =
          acc.st.heap ++ [newCell acc.st (mergeConfig ce acc.conf)
            (defaultFields (mergeConfig ce acc.conf) p) (some acc.log)] from rfl]
      rw [getD_concat, newCell_config, hconf]
    · simp only
      rw [show (newLogInState acc.st (mergeConfig ce acc.conf)
            (defaultFields (mergeConfig ce acc.conf) p) (some acc.log)).1.heap =
          acc.st.heap ++ [newCell acc.st (mergeConfig ce acc.conf)
            (defaultFields (mergeConfig ce acc.conf) p) (some acc.log)] from rfl]
      rw [getD_concat, newCell_level, hconf]
  | none =>
    rw [getStep_skip acc p hfound hc]
    have hcnamed : lookupA c.named p = none := by rw [← h2]; exact hc
    have hconf : acc.conf = mergeAlong c (done ++ [p]) := by
      rw [mergeAlong_concat, hcnamed, h3]
    exact ⟨fun k hk => List.mem_append_left _ (h1 k hk), h2, hconf,
      by rw [h4], by rw [h5]⟩

theorem freshInv_fold (c : Config) (rest done : List String) (acc : GetAcc)
    (hpw : (done ++ rest).Pairwise (· ≠ ·)) (h : FreshInv c done acc) :
    FreshInv c (done ++ rest) (rest.foldl getStep acc) := by
  induction rest generalizing done acc with
  | nil => simpa using h
  | cons p rest' ih =>
    have hp : p ∉ done := by
      intro hmem
      have := (List.pairwise_append.mp hpw).2.2 p hmem p (List.mem_cons_self _ _)
      exact this rfl
    have hstep := freshInv_step c done acc p hp h
    have hpw' : ((done ++ [p]) ++ rest').Pairwise (· ≠ ·) := by
      rw [List.append_assoc]
      exact hpw
    have := ih (done ++ [p]) (getStep acc p) hpw' hstep
    rw [List.append_assoc] at this
    exact this

theorem freshInv_base (c : Config) :
    FreshInv c [] ⟨newLogRoot c, (newLogRoot c).defId, "/", (newLogRoot c).defConfig⟩ := by
  refine ⟨?_, rfl, rfl, ?_, ?_⟩
  · intro k hk
    cases hk
  · rfl
  · rfl

/-- **C1.** Resolved-config invariant of `Get` on a freshly configured
registry: for every root config `c` and every nonempty path `p`, the handle
returned by `Get(p)` stores exactly the root config merged field-wise, in
path order, with each explicit `Named` entry along the normalized path's
prefixes (partial-override merge, empty/nil fields inheriting), and its
effective apex level is the parsed level of that merged config (falling
back to `info`). -/
theorem get_resolved_config (c : Config) (p : String) (hp : p ≠ "") :
    ((rootGet (newLogRoot c) p).1.heap.getD (rootGet (newLogRoot c) p).2 deadSnap).config
      = mergeAlong c (pathPrefixes (normPath p)) ∧
    ((rootGet (newLogRoot c) p).1.heap.getD (rootGet (newLogRoot c) p).2 deadSnap).level
      = (parseLevel (mergeAlong c (pathPrefixes (normPath p))).level).getD infoLevel := by
  have hnamed : (newLogRoot c).named = [] := rfl
  have hl : lookupA (newLogRoot c).named (normPath p) = none := by rw [hnamed]; rfl
  have hget : rootGet (newLogRoot c) p = rootGetWalk (newLogRoot c) (normPath p) := by
    unfold rootGet
    rw [if_neg hp]
  have hinv := freshInv_fold c (pathPrefixes (normPath p)) [] 
    ⟨newLogRoot c, (newLogRoot c).defId, "/", (newLogRoot c).defConfig⟩
    (by simpa using pathPrefixes_pairwise_ne (normPath p)) (freshInv_base c)
  rw [List.nil_append] at hinv
  obtain ⟨h1, h2, h3, h4, h5⟩ := hinv
  have hacc : getWalkAcc (newLogRoot c) (normPath p) =
      (pathPrefixes (normPath p)).foldl getStep
        ⟨newLogRoot c, (newLogRoot c).defId, "/", (newLogRoot c).defConfig⟩ := rfl
  rw [hget, rootGetWalk_miss _ _ hl]
  by_cases hq : (getWalkAcc (newLogRoot c) (normPath p)).logPath = normPath p
  · rw [if_pos hq]
    rw [hacc] at *
    exact ⟨by rw [h4, h3], by rw [h5, h3]⟩
  · rw [if_neg hq]
    simp only
    rw [show (newLogInState (getWalkAcc (newLogRoot c) (normPath p)).st
          (getWalkAcc (newLogRoot c) (normPath p)).conf
          (defaultFields (getWalkAcc (newLogRoot c) (normPath p)).conf (normPath p))
          (some (getWalkAcc (newLogRoot c) (normPath p)).log)).1.heap =
        (getWalkAcc (newLogRoot c) (normPath p)).st.heap ++
          [newCell (getWalkAcc (newLogRoot c) (normPath p)).st
            (getWalkAcc (newLogRoot c) (normPath p)).conf
            (defaultFields (getWalkAcc (newLogRoot c) (normPath p)).conf (normPath p))
            (some (getWalkAcc (newLogRoot c) (normPath p)).log)] from rfl]
    rw [getD_concat, newCell_config, newCell_level]
    rw [hacc] at *
    exact ⟨h3, by rw [h3]⟩

/-- **C1, witness.** The claim's merge example: root level `info`, an
explicit `{level: debug}` entry at `/a`, nothing at `/a/b`:
`Get("/a/b").Level()` is `"debug"`, inheriting the nearest explicit
ancestor. -/
theorem get_resolved_config_witness :
    let c : Config := ⟨"info", "text", none, none, none,
      [("/a", ⟨"debug", "", none, none, none⟩)]⟩
    ("/a/b" : String) ≠ "" ∧
    ((rootGet (newLogRoot c) "/a/b").1.heap.getD
        (rootGet (newLogRoot c) "/a/b").2 deadSnap).config
      = mergeAlong c (pathPrefixes (normPath "/a/b")) ∧
    (mergeAlong c (pathPrefixes (normPath "/a/b"))).level = "debug" ∧
    logLevelString (rootGet (newLogRoot c) "/a/b").1
      (rootGet (newLogRoot c) "/a/b").2 = "debug" := by
  refine ⟨by decide, ?_, by decide, by decide⟩
  exact (get_resolved_config _ "/a/b" (by decide)).1

/-- **C2.** `Get` is idempotent in both the returned handle and the registry
state: whatever state the first `Get(p)` produced, a second `Get(p)` returns
the very same handle reference and leaves the registry unchanged — at most
one handle ever exists per (normalized) path. -/
theorem get_identity (st : RootState) (p : String) :
    rootGet (rootGet st p).1 p = ((rootGet st p).1, (rootGet st p).2) := by
  by_cases hp : p = ""
  · subst hp
    rfl
  · have hget : rootGet st p = rootGetWalk st (normPath p) := by
      unfold rootGet
      rw [if_neg hp]
    rw [hget]
    have hget2 : ∀ s : RootState, rootGet s p = rootGetWalk s (normPath p) := by
      intro s
      unfold rootGet
      rw [if_neg hp]
    rw [hget2]
    cases hl : lookupA st.named (normPath p) with
    | some l =>
      have hsl : rootGetWalk st (normPath p) = (st, l) := by
        unfold rootGetWalk
        rw [hl]
      rw [hsl]
      exact hsl
    | none => exact rootGetWalk_idem st (normPath p) hl


/-- **C5.** A throttled decorator's `Fatal` forwards every call directly to
the underlying logger, independent of (and without touching) the throttle
state; and a logger's `Fatal` emission is always forwarded to the backend
sink, whatever the level threshold. -/
theorem fatal_bypasses_throttle_and_threshold :
    (∀ (t : ThrottledLog) (msg : String) (kv : List Field),
      throttledFatal t msg kv = (t, loggerFatal t.logger msg kv)) ∧
    (∀ (l : LoggerSnap) (msg : String) (kv : List Field),
      (loggerFatal l msg kv).emitted = some ⟨fatalLevel, msg, loggerFields l.config kv⟩) := by
  exact ⟨fun _ _ _ => rfl, fun _ _ _ => rfl⟩

/-- **C8, counterexample.** At a concrete logger named `/x`, a `Fatal` call
performs no metrics-counter increment at all, and a `Trace` call increments
the counter keyed `debug` (not one keyed `trace`): the claim that every
level `L ∈ {trace,…,fatal}` bumps the counter keyed `(L, name)` is false. -/
theorem metrics_keying_counterexample :
    (loggerFatal ⟨infoLevel, 0, "json", "/x", ⟨"info", "json", none, none, none, []⟩, none⟩
        "boom" []).metricCalls = [] ∧
    (loggerTrace ⟨infoLevel, 0, "json", "/x", ⟨"info", "json", none, none, none, []⟩, none⟩
        "m" []).metricCalls = [("debug", "/x")] ∧
    ("debug", "/x") ≠ ("trace", "/x") := by
  refine ⟨rfl, rfl, by decide⟩

/-- **C8, amended.** Every per-level call makes its metric-counter bump
before and independently of the level-threshold check — `debug`, `info`,
`warn` and `error` bump the counter keyed by their own level and the logger
name, `trace` bumps the `debug` counter, and `fatal` makes no metrics call
at all. -/
theorem metrics_increment_per_level (l : LoggerSnap) (msg : String) (args : List Field) :
    (loggerTrace l msg args).metricCalls = [("debug", l.name)] ∧
    (loggerDebug l msg args).metricCalls = [("debug", l.name)] ∧
    (loggerInfo l msg args).metricCalls = [("info", l.name)] ∧
    (loggerWarn l msg args).metricCalls = [("warn", l.name)] ∧
    (loggerError l msg args).metricCalls = [("error", l.name)] ∧
    (loggerFatal l msg args).metricCalls = [] := by
  exact ⟨rfl, rfl, rfl, rfl, rfl, rfl⟩

/-- **C9.** The throttle factory memoizes one decorator per key: a call
hitting the cache returns the stored decorator unchanged — its period is
the one fixed at creation, whatever duration the later call passes — and a
miss creates the decorator with the first passed duration, defaulting to
5 seconds when none is given. -/
theorem factoryGet_memoizes (f : FactoryState) (l : LoggerSnap) (key : String)
    (durs : List Nat) :
    (∀ tl, lookupA f.cache key = some tl → factoryGet f l key durs = (f, tl)) ∧
    (lookupA f.cache key = none →
      factoryGet f l key durs =
        (⟨f.cache ++ [(key, newThrottledLog l (durs.headD 5000))]⟩,
          newThrottledLog l (durs.headD 5000))) := by
  constructor
  · intro tl h
    unfold factoryGet
    rw [h]
  · intro h
    unfold factoryGet
    rw [h]

/-- **C9, witness.** Creating `"connect"` with period 100 and re-getting it
with period 250 returns the original decorator with period 100; a key
created without a duration gets the 5000 ms default. -/
theorem factoryGet_memoizes_witness :
    let l : LoggerSnap := deadSnap
    let f1 := (factoryGet ⟨[]⟩ l "connect" [100]).1
    lookupA f1.cache "connect" = some (newThrottledLog l 100) ∧
    factoryGet f1 l "connect" [250] = (f1, newThrottledLog l 100) ∧
    (factoryGet ⟨[]⟩ l "k" []).2.period = 5000 := by
  refine ⟨rfl, ?_, rfl⟩
  exact (factoryGet_memoizes _ deadSnap "connect" [250]).1 _ rfl

/-- **C7.** Malformed level strings are silent: (a) a logger constructed
from a config whose level string does not parse gets effective level
`info`; (b) `SetLevel` with a non-parsing string leaves the registry
(hence the handle's level and everything else) unchanged. -/
theorem malformed_level_strings_silent :
    (∀ (st : RootState) (c : Config) (fn : Option String) (p : Option Nat),
      parseLevel c.level = none → (newLogSnap st c fn p).level = infoLevel) ∧
    (∀ (st : RootState) (logId : Nat) (s : String),
      parseLevel s = none → setLevelStr st logId s = st) := by
  constructor
  · intro st c fn p h
    rw [(newLogSnap_fields st c fn p).1, h]
    rfl
  · intro st logId s h
    unfold setLevelStr
    rw [h]

/-- **C7, witness.** The level string `"verbose"` does not parse; a logger
built from it has level `info`, and `SetLevel "verbose"` on the default
registry's root handle is a no-op. -/
theorem malformed_level_strings_silent_witness :
    parseLevel "verbose" = none ∧
    (newLogSnap defaultLogRoot ⟨"verbose", "text", none, none, none, []⟩
      (some "/") none).level = infoLevel ∧
    setLevelStr defaultLogRoot 0 "verbose" = defaultLogRoot := by
  refine ⟨rfl, ?_, ?_⟩
  · exact (malformed_level_strings_silent).1 defaultLogRoot
      ⟨"verbose", "text", none, none, none, []⟩ (some "/") none rfl
  · exact (malformed_level_strings_silent).2 defaultLogRoot 0 "verbose" rfl

/-- **C6.** `SetDefault` with a config deep-equal to the current default is
a complete no-op: the whole registry state — default handle, default
config, every named handle's snapshot, and the instance/file creation
counters — is returned unchanged. -/
theorem setDefault_deepEqual_noop (st : RootState) (c : Config)
    (h : configDeepEqual st.defConfig c = true) :
    rootSetDefault st c = st := by
  unfold rootSetDefault sameConfig
  rw [h]
  rfl

/-- **C6, witness.** Setting a non-default config once and then setting a
deep-equal copy again: the second call returns the state unchanged. -/
theorem setDefault_deepEqual_noop_witness :
    let c : Config := ⟨"debug", "json", none, none, none,
      [("/a", ⟨"warn", "", none, none, none⟩)]⟩
    let s1 := rootSetDefault defaultLogRoot c
    configDeepEqual s1.defConfig c = true ∧ rootSetDefault s1 c = s1 := by
  refine ⟨by decide, ?_⟩
  exact setDefault_deepEqual_noop _ _ (by decide)

/-- The named-map fold inside `setLogLevel`: it relevels exactly the heap
cells referenced by a prefix-matching named entry and touches nothing
else.  (`setLevelFoldStep` names the loop body.) -/
theorem setLevelFold_spec (nm : String) (lv : Int) (ents : List (String × Nat))
    (st : RootState) :
    (ents.foldl (setLevelFoldStep nm lv) st).named = st.named ∧
    (ents.foldl (setLevelFoldStep nm lv) st).defId = st.defId ∧
    (ents.foldl (setLevelFoldStep nm lv) st).defConfig = st.defConfig ∧
    (ents.foldl (setLevelFoldStep nm lv) st).instancesCreated = st.instancesCreated ∧
    (ents.foldl (setLevelFoldStep nm lv) st).filesCreated = st.filesCreated ∧
    (ents.foldl (setLevelFoldStep nm lv) st).heap.length = st.heap.length ∧
    ∀ i, i < st.heap.length →
      (ents.foldl (setLevelFoldStep nm lv) st).heap.getD i deadSnap =
        cond (ents.any fun e => e.2 == i && hasPfx nm e.1)
          (setLevelSnap lv (st.heap.getD i deadSnap)) (st.heap.getD i deadSnap) := by
  induction ents generalizing st with
  | nil => exact ⟨rfl, rfl, rfl, rfl, rfl, rfl, fun i _ => by simp⟩
  | cons e rest ih =>
    have hstep : ∀ s : RootState, (e :: rest).foldl (setLevelFoldStep nm lv) s =
        rest.foldl (setLevelFoldStep nm lv) (setLevelFoldStep nm lv s e) :=
      fun s => List.foldl_cons ..
    obtain ⟨h1, h2, h3, h4, h5, h6, h7⟩ := ih (setLevelFoldStep nm lv st e)
    have hkeep : (setLevelFoldStep nm lv st e).named = st.named ∧
        (setLevelFoldStep nm lv st e).defId = st.defId ∧
        (setLevelFoldStep nm lv st e).defConfig = st.defConfig ∧
        (setLevelFoldStep nm lv st e).instancesCreated = st.instancesCreated ∧
        (setLevelFoldStep nm lv st e).filesCreated = st.filesCreated ∧
        (setLevelFoldStep nm lv st e).heap.length = st.heap.length := by
      unfold setLevelFoldStep
      split <;> simp
    rw [hstep]
    refine ⟨h1.trans hkeep.1, h2.trans hkeep.2.1, h3.trans hkeep.2.2.1,
      h4.trans hkeep.2.2.2.1, h5.trans hkeep.2.2.2.2.1, h6.trans hkeep.2.2.2.2.2, ?_⟩
    intro i hi
    have hi' : i < (setLevelFoldStep nm lv st e).heap.length := by
      rw [hkeep.2.2.2.2.2]; exact hi
    rw [h7 i hi']
    have hcell : (setLevelFoldStep nm lv st e).heap.getD i deadSnap =
        cond (e.2 == i && hasPfx nm e.1)
          (setLevelSnap lv (st.heap.getD i deadSnap)) (st.heap.getD i deadSnap) := by
      unfold setLevelFoldStep
      cases hp : hasPfx nm e.1 with
      | false => simp [hp]
      | true =>
        simp only [if_pos rfl, Bool.and_true]
        by_cases hei : e.2 = i
        · subst hei
          simp [List.getElem?_set_self hi]
        · have : (e.2 == i) = false := by simp [hei]
          simp [this, List.getElem?_set_ne hei]
    rw [List.any_cons, hcell]
    cases hh : (e.2 == i && hasPfx nm e.1) with
    | false => simp
    | true => cases hr : rest.any (fun e => e.2 == i && hasPfx nm e.1) with
      | false => simp
      | true => simp [setLevelSnap_idem]

/-- **C10.** In every registry state reachable through the public
operations — construction from any config, `Get`, `SetDefault`, `SetLevel`
and the `SetXxx` setters — every handle's `IsFatal()` is true: no
operation can push a handle's effective level above `fatal`, since
`ParseLevel` yields at most `fatal`, invalid level strings fall back to
`info`, and the setters assign at most `fatal`. -/
theorem isFatal_always_true (s : RootState) (h : Reached s) :
    ∀ i, i < s.heap.length → isFatal (s.heap.getD i deadSnap) = true := by
  intro i _
  have := levelsOk_getD s (levelsOk_reached s h) i
  unfold isFatal
  exact decide_eq_true this

/-- **C10, witness.** The default registry is reachable and its default
handle answers `IsFatal() = true`. -/
theorem isFatal_always_true_witness :
    0 < defaultLogRoot.heap.length ∧
    isFatal (defaultLogRoot.heap.getD 0 deadSnap) = true := by
  refine ⟨by decide, ?_⟩
  exact isFatal_always_true defaultLogRoot (Reached.root defaultConfig) 0 (by decide)

/-- **C3, counterexample.** With handles at `/a` and `/ab` (a sibling whose
path textually extends `/a` without a separator), `SetLevel` on `/a`
changes `/ab`'s level as well, although `/ab` is neither `/a` nor a
descendant of `/a`: the claim's "exactly that handle and every descendant"
scoping is false — the code scopes by plain string prefix. -/
theorem setLevel_descendant_counterexample :
    let s0 := newLogRoot ⟨"info", "text", none, none, none, []⟩
    let r1 := rootGet s0 "/a"
    let r2 := rootGet r1.1 "/ab"
    let s' := setLevelStr r2.1 r1.2 "debug"
    isDescendant "/a" "/ab" = false ∧
    (r2.1.heap.getD r2.2 deadSnap).level = infoLevel ∧
    (s'.heap.getD r2.2 deadSnap).level = debugLevel := by
  refine ⟨by decide, by decide, by decide⟩

/-- **C3, amended.** `setLogLevel` on the handle `logId` changes exactly
the handles whose registered path has the target's log name as a *string
prefix* (which includes the handle itself and all genuine descendants, but
also non-descendant siblings like `/ab` under `/a`), and on every affected
handle it changes only the level (apex level and config level string, via
`setLevelSnap`): name, handler identity and kind, go-routine-id/caller
flags, file settings and the rotation writer are untouched, and the named
map and the creation counters are unchanged.  The default config's level
string changes exactly when the target is the default (root) handle, whose
snapshot shares its `*Config` with `logRoot.defConfig`; for any named
target it is untouched. -/
theorem setLevel_scope (s : RootState) (logId : Nat) (lv : Int) :
    (setLogLevel s logId lv).named = s.named ∧
    (setLogLevel s logId lv).defId = s.defId ∧
    (setLogLevel s logId lv).defConfig =
      (if logId = s.defId then { s.defConfig with level := levelString lv }
        else s.defConfig) ∧
    (setLogLevel s logId lv).instancesCreated = s.instancesCreated ∧
    (setLogLevel s logId lv).filesCreated = s.filesCreated ∧
    (setLogLevel s logId lv).heap.length = s.heap.length ∧
    ∀ i, i < s.heap.length →
      (setLogLevel s logId lv).heap.getD i deadSnap =
        cond (levelTouched s logId (s.heap.getD logId deadSnap).name i)
          (setLevelSnap lv (s.heap.getD i deadSnap)) (s.heap.getD i deadSnap) := by
  obtain ⟨h1, h2, h3, h4, h5, h6, h7⟩ :=
    setLevelFold_spec (s.heap.getD logId deadSnap).name lv s.named s
  have hheap : ∀ i, i < s.heap.length →
      ((s.named.foldl (setLevelFoldStep (s.heap.getD logId deadSnap).name lv) s).heap.set
          logId (setLevelSnap lv
            ((s.named.foldl (setLevelFoldStep (s.heap.getD logId deadSnap).name lv)
              s).heap.getD logId deadSnap))).getD i deadSnap =
        cond (levelTouched s logId (s.heap.getD logId deadSnap).name i)
          (setLevelSnap lv (s.heap.getD i deadSnap)) (s.heap.getD i deadSnap) := by
    intro i hi
    have hi1 : i <
        (s.named.foldl (setLevelFoldStep (s.heap.getD logId deadSnap).name lv) s).heap.length := by
      rw [h6]; exact hi
    unfold levelTouched
    by_cases hil : i = logId
    · subst hil
      rw [getD_set_self _ _ _ _ hi1, h7 i hi]
      simp only [beq_self_eq_true, Bool.true_or, cond_true]
      cases hr : s.named.any (fun e => e.2 == i && hasPfx (s.heap.getD i deadSnap).name e.1) with
      | false => simp [hr]
      | true => simp [hr, setLevelSnap_idem]
    · have hne : (i == logId) = false := by simp [hil]
      rw [getD_set_ne _ _ _ _ _ (Ne.symm hil), h7 i hi, hne, Bool.false_or]
  by_cases hd : logId = s.defId
  · have heq : setLogLevel s logId lv =
        { (s.named.foldl (setLevelFoldStep (s.heap.getD logId deadSnap).name lv) s) with
          heap := (s.named.foldl (setLevelFoldStep (s.heap.getD logId deadSnap).name lv)
              s).heap.set logId (setLevelSnap lv
                ((s.named.foldl (setLevelFoldStep (s.heap.getD logId deadSnap).name lv)
                  s).heap.getD logId deadSnap))
          defConfig := { (s.named.foldl (setLevelFoldStep (s.heap.getD logId deadSnap).name lv)
              s).defConfig with level := levelString lv } } := by
      unfold setLogLevel
      dsimp only
      rw [if_pos hd]
    rw [heq]
    refine ⟨h1, h2, ?_, h4, h5, by simpa using h6, hheap⟩
    rw [if_pos hd, h3]
  · have heq : setLogLevel s logId lv =
        { (s.named.foldl (setLevelFoldStep (s.heap.getD logId deadSnap).name lv) s) with
          heap := (s.named.foldl (setLevelFoldStep (s.heap.getD logId deadSnap).name lv)
              s).heap.set logId (setLevelSnap lv
                ((s.named.foldl (setLevelFoldStep (s.heap.getD logId deadSnap).name lv)
                  s).heap.getD logId deadSnap)) } := by
      unfold setLogLevel
      dsimp only
      rw [if_neg hd]
    rw [heq]
    refine ⟨h1, h2, ?_, h4, h5, by simpa using h6, hheap⟩
    rw [if_neg hd]
    exact h3

/-- **C3, amended — witness.** The claim's own scenario (handles at `/a`,
`/a/b`, `/c`): instantiating the frame theorem at the `/c` handle. -/
theorem setLevel_scope_witness :
    let s0 := newLogRoot ⟨"info", "text", none, none, none, []⟩
    let rA := rootGet s0 "/a"
    let rAB := rootGet rA.1 "/a/b"
    let rC := rootGet rAB.1 "/c"
    rC.2 < rC.1.heap.length ∧
    (setLogLevel rC.1 rA.2 debugLevel).heap.getD rC.2 deadSnap =
      cond (levelTouched rC.1 rA.2 (rC.1.heap.getD rA.2 deadSnap).name rC.2)
        (setLevelSnap debugLevel (rC.1.heap.getD rC.2 deadSnap))
        (rC.1.heap.getD rC.2 deadSnap) := by
  refine ⟨by decide, ?_⟩
  exact (setLevel_scope _ _ debugLevel).2.2.2.2.2.2 _ (by decide)

/-- **C4.** Throttle scenario: period 100 ms, clock starting at 0 advancing
10 ms per call, 24 calls to the decorator's `Warn` on a logger whose level
permits warn (and which appends no gid/caller fields): exactly the calls
1, 11 and 21 emit — call 1 with the caller's fields unchanged and no
`suppressed` field, calls 11 and 21 with `suppressed = 9` and
`throttle_period = 100` appended — and every other call emits nothing and
increments the suppression counter. -/
theorem throttle_scenario_24_calls (msg : String) (kvF : Nat → List Field)
    (l : LoggerSnap) (hw : isWarn l = true)
    (hg : l.config.goRoutineID ≠ some true) (hc : l.config.caller ≠ some true) :
    runThrottledWarn msg kvF 24 1 (newThrottledLog l 100) =
      [(some ⟨warnLevel, msg, kvF 1⟩, 0),
        (none, 1), (none, 2), (none, 3), (none, 4), (none, 5),
        (none, 6), (none, 7), (none, 8), (none, 9),
        (some ⟨warnLevel, msg,
          kvF 11 ++ [("suppressed", FVal.int 9), ("throttle_period", FVal.dur 100)]⟩, 0),
        (none, 1), (none, 2), (none, 3), (none, 4), (none, 5),
        (none, 6), (none, 7), (none, 8), (none, 9),
        (some ⟨warnLevel, msg,
          kvF 21 ++ [("suppressed", FVal.int 9), ("throttle_period", FVal.dur 100)]⟩, 0),
        (none, 1), (none, 2), (none, 3)] := by
  simp [runThrottledWarn, throttledWarn, throttle, loggerWarn, newThrottledLog,
    loggerFields, hw, hg, hc]

/-- **C4, witness.** The scenario instantiated at a concrete info-level
text logger with fields `attempt=i`. -/
theorem throttle_scenario_24_calls_witness :
    let l : LoggerSnap :=
      ⟨infoLevel, 0, "text", "/x", ⟨"info", "text", none, none, none, []⟩, none⟩
    isWarn l = true ∧
    (runThrottledWarn "failed to connect" (fun i => [("attempt", FVal.int i)]) 24 1
        (newThrottledLog l 100)).countP (fun r => r.1.isSome) = 3 := by
  intro l
  refine ⟨by decide, ?_⟩
  rw [throttle_scenario_24_calls "failed to connect" (fun i => [("attempt", FVal.int i)])
    l (by decide) (by decide) (by decide)]
  rfl

end Elog
